import Mathlib

/-!
Verification of the uwu file packer (src/pack.ts).

The development shallowly embeds the packing engine: file contents are lists
of bytes (modelled as natural numbers), the streaming copy of a byte range
becomes an explicit drop/take on the source content (a Node read stream with
an end point past the end of the file is clamped at end-of-file, which the
take models), and the incremental sha1 hash object is modelled by the exact
byte sequence fed to it (the digest of a part is identified with the byte
stream that was hashed, which also equals the contents of the temporary part
file, since the same chunks are piped to both).  The inner copy loop of
processFile is embedded with explicit fuel; a run that would not terminate
(which cannot happen for a positive maxPartSize) evaluates to none.  The gzip
transform is an opaque parameter of the engine.
-/

namespace Uwu

/-! ### JavaScript primitives -/

/-- Number.MAX_SAFE_INTEGER. -/
def maxSafeInteger : Nat := 2 ^ 53 - 1

/-- String.prototype.includes: substring containment, true when the pattern
matches at some position (including the empty pattern). -/
def jsIncludes (s pat : String) : Bool := s.data.tails.any (pat.data.isPrefixOf ·)

/-- String.prototype.endsWith: suffix test. -/
def jsEndsWith (s pat : String) : Bool := pat.data.isSuffixOf s.data

/-- String.prototype.padStart with a pad character. -/
def jsPadStart (s : String) (len : Nat) (c : Char) : String :=
  String.mk (List.replicate (len - s.data.length) c) ++ s

/-- Helper for jsReplaceFirst: rewrite the first position where the pattern
matches, leaving the text unchanged when it never matches. -/
def replaceFirstAux (pat rep : List Char) : List Char → List Char
  | [] => if pat.isPrefixOf [] then rep else []
  | c :: cs =>
      if pat.isPrefixOf (c :: cs) then rep ++ (c :: cs).drop pat.length
      else c :: replaceFirstAux pat rep cs

/-- String.prototype.replace with a string pattern: replaces only the first
occurrence of the pattern. -/
def jsReplaceFirst (s pat rep : String) : String :=
  String.mk (replaceFirstAux pat.data rep.data s.data)

/-- path.join for the two-argument uses in pack.ts. -/
def pathJoin (dir name : String) : String := dir ++ "/" ++ name

/-- path.relative(base, p) for the case where p lies under base, which is how
the packer uses it: the enumerator only yields paths built by joining base
with relative components. -/
def pathRelative (base p : String) : String :=
  String.mk (p.data.drop (base.data.length + 1))

/-! ### Data model (the exported types of pack.ts) -/

/-- SourceFile: the enumerator yields path and size; the embedding carries the
content so that streamed bytes can be reasoned about, with size the length. -/
structure SrcFile where
  path : String
  content : List Nat
deriving Repr, DecidableEq

/-- srcFile.size. -/
def SrcFile.size (s : SrcFile) : Nat := s.content.length

/-- FileType: one manifest record for a contiguous byte range of a source
file stored in one part. -/
structure FileType where
  filePath : String
  fileOffset : Nat
  fileSize : Nat
  packageOffset : Nat
  packageSize : Nat
deriving Repr, DecidableEq

/-- DestinationEntry: a finalized part.  The sha1 digest is modelled by the
byte sequence that was hashed (the uncompressed part contents); likewise the
compressed digest is modelled by the compressed byte sequence. -/
structure DestinationEntry where
  name : String
  sha1 : List Nat
  size : Nat
  compressed : Bool
  compressedSha1 : Option (List Nat)
  compressedSize : Option Nat
  fileList : List FileType
deriving Repr, DecidableEq

/-- PackingResult: the manifest aggregate. -/
structure PackingResult where
  totalSize : Nat
  compressedSize : Nat
  parts : Nat
  fileList : List DestinationEntry
deriving Repr, DecidableEq

/-- CurrentProcessingEntry: the part under construction.  sha1 is the running
hash state, modelled by the bytes fed to it so far, which also equal the
contents of the temporary part file.  compressedSha1 and compressedSize are
the optional fields of the TypeScript type; initCurDst never sets them.
tmpCreated mirrors the filesystem: it records whether the part's temporary
file exists, which happens exactly when a copy pipeline has opened the
appending write stream on it. -/
structure CurrentEntry where
  name : String
  path : String
  sha1 : List Nat
  size : Nat
  compressed : Bool
  compressedSha1 : Option (List Nat)
  compressedSize : Option Nat
  fileList : List FileType
  tmpCreated : Bool
deriving Repr, DecidableEq

/-- The per-run configuration of a FilePacker after option merging. -/
structure PackCtx where
  srcDir : String
  dstDir : String
  maxPartSize : Nat
  outputNameFormat : String
  compress : Bool
deriving Repr, DecidableEq

/-- The mutable state of a FilePacker during a run: the accumulated result
and the current part. -/
structure PackState where
  result : PackingResult
  curDest : CurrentEntry
deriving Repr, DecidableEq

/-! ### The packing engine -/

/-- FilePacker.currentPartNumber: one-based part index, zero-padded to three
digits. -/
def currentPartNumber (result : PackingResult) : String :=
  jsPadStart (toString (result.fileList.length + 1)) 3 '0'

/-- FilePacker.initCurDst. -/
def initCurDst (ctx : PackCtx) (result : PackingResult) : CurrentEntry :=
  let dstName := jsReplaceFirst ctx.outputNameFormat "%d" (currentPartNumber result)
  { name := dstName
    path := pathJoin ctx.dstDir dstName
    sha1 := []
    size := 0
    compressed := ctx.compress
    compressedSha1 := none
    compressedSize := none
    fileList := []
    tmpCreated := false }

/-- The immutable snapshot finalizePart takes of the current entry: the
digest is finalized (modelled by the hashed byte stream), and the compressed
branch streams the temporary file (whose contents equal the hashed byte
stream) through gzip, recording the compressed output's hash and byte
count. -/
def mkFinalEntry (gzip : List Nat → List Nat) (d : CurrentEntry) : DestinationEntry :=
  let base : DestinationEntry :=
    { name := d.name
      sha1 := d.sha1
      size := d.size
      compressed := d.compressed
      compressedSha1 := none
      compressedSize := none
      fileList := d.fileList }
  if d.compressed then
    let compressedBytes := gzip d.sha1
    { base with
      compressedSha1 := some compressedBytes
      compressedSize := some compressedBytes.length }
  else base

/-- The bookkeeping FilePacker.finalizePart performs once the rename (or
compressed rewrite) of the temporary part file has succeeded: snapshot the
current entry, fold its size into the aggregate totals, append it to the
result, and open the next part.  Aggregate compressed accounting reads
compressedSize from the current entry, on which it was never set, hence the
getD falls back to the uncompressed size exactly as the nullish coalescing
in the source does. -/
def finalizePartOk (gzip : List Nat → List Nat) (ctx : PackCtx) (st : PackState) : PackState :=
  let d := st.curDest
  let finalEntry := mkFinalEntry gzip d
  let result :=
    { st.result with
      totalSize := st.result.totalSize + d.size
      compressedSize := st.result.compressedSize + (d.compressedSize.getD d.size)
      fileList := st.result.fileList ++ [finalEntry] }
  { result := result, curDest := initCurDst ctx result }

/-- FilePacker.finalizePart.  The plain branch renames the part's temporary
file into place and the compressed branch opens it for reading; for a part
whose temporary file was never created (no copy pipeline ever targeted it)
either operation throws ENOENT before the result is touched, which the
none value models.  Otherwise the bookkeeping runs. -/
def finalizePart (gzip : List Nat → List Nat) (ctx : PackCtx) (st : PackState) :
    Option PackState :=
  if st.curDest.tmpCreated then some (finalizePartOk gzip ctx st) else none

/-- One iteration of the inner copy loop of FilePacker.processFile, lines
119-142: compute the stream end point, stream the byte range (the read
stream is clamped at end-of-file, so the take past the end of the dropped
content yields exactly the remaining bytes), count the bytes through the
hashing transform, append the FileRecord, and advance the part size.  The
appending write stream creates the part's temporary file, which tmpCreated
records.  Returns the updated state and bytesRead. -/
def copyStep (ctx : PackCtx) (src : SrcFile) (totalBytesRead : Nat) (st : PackState) :
    PackState × Nat :=
  let streamEnd := totalBytesRead + min src.size (ctx.maxPartSize - st.curDest.size)
  let chunk := (src.content.drop totalBytesRead).take (streamEnd - totalBytesRead)
  let bytesRead := chunk.length
  let d := st.curDest
  let record : FileType :=
    { filePath := pathRelative ctx.srcDir src.path
      fileOffset := totalBytesRead
      fileSize := src.size
      packageOffset := d.size
      packageSize := bytesRead }
  let d :=
    { d with
      sha1 := d.sha1 ++ chunk
      fileList := d.fileList ++ [record]
      size := d.size + bytesRead
      tmpCreated := true }
  ({ st with curDest := d }, bytesRead)

/-- The inner while loop of FilePacker.processFile, run with explicit fuel:
while bytes remain, copy a range, then roll the part over when it is exactly
full.  Exhausted fuel (possible only when a copy makes no progress, i.e. the
loop would not terminate) yields none. -/
def processFileLoop (gzip : List Nat → List Nat) (ctx : PackCtx) (src : SrcFile) :
    Nat → Nat → PackState → Option PackState
  | fuel, totalBytesRead, st =>
    if totalBytesRead < src.size then
      match fuel with
      | 0 => none
      | fuel + 1 =>
        let step := copyStep ctx src totalBytesRead st
        let st₁ := step.1
        let bytesRead := step.2
        let st₂? :=
          if st₁.curDest.size = ctx.maxPartSize then finalizePart gzip ctx st₁
          else some st₁
        st₂?.bind (processFileLoop gzip ctx src fuel (totalBytesRead + bytesRead))
    else some st

/-- FilePacker.processFile.  A fuel of src.size covers every terminating run,
since each iteration of a terminating loop consumes at least one byte. -/
def processFile (gzip : List Nat → List Nat) (ctx : PackCtx) (src : SrcFile)
    (st : PackState) : Option PackState :=
  processFileLoop gzip ctx src src.size 0 st

/-- The enumeration loop of FilePacker.pack: process each source file in
order. -/
def packFiles (gzip : List Nat → List Nat) (ctx : PackCtx) :
    List SrcFile → PackState → Option PackState
  | [], st => some st
  | src :: rest, st => (processFile gzip ctx src st).bind (packFiles gzip ctx rest)

/-- The state a FilePacker holds right after construction. -/
def initialState (ctx : PackCtx) : PackState :=
  let result : PackingResult := { totalSize := 0, compressedSize := 0, parts := 0, fileList := [] }
  { result := result, curDest := initCurDst ctx result }

/-- FilePacker.pack on an already-enumerated list of source files: process
every file, finalize the last part unconditionally — which fails with ENOENT
when that part never received any bytes, since its temporary file was never
created — and on success set parts to the number of finalized parts.  (The
manifest serialization writes this same result out and returns it.) -/
def pack (gzip : List Nat → List Nat) (ctx : PackCtx) (srcs : List SrcFile) :
    Option PackingResult :=
  match packFiles gzip ctx srcs (initialState ctx) with
  | none => none
  | some st =>
    match finalizePart gzip ctx st with
    | none => none
    | some fin => some { fin.result with parts := fin.result.fileList.length }

/-! ### The file enumerator -/

/-- A directory tree: what the filesystem under a directory looks like to
the enumerator.  A file carries its content; a directory its entries in
listing order. -/
inductive DirTree where
  | file (name : String) (content : List Nat)
  | dir (name : String) (entries : List DirTree)
deriving Repr

mutual

/-- The files one entry of the listing contributes to getFilesRecursively: a
directory is expanded recursively, any other entry is yielded with its path
and data. -/
def entryFiles (dirPath : String) : DirTree → List SrcFile
  | .file name content => [{ path := pathJoin dirPath name, content := content }]
  | .dir name sub => getFilesRecursively (pathJoin dirPath name) sub

/-- getFilesRecursively: depth-first enumeration in listing order, recursing
into subdirectories and yielding every other entry. -/
def getFilesRecursively (dirPath : String) : List DirTree → List SrcFile
  | [] => []
  | t :: rest => entryFiles dirPath t ++ getFilesRecursively dirPath rest

end

/-- Packing a source directory: enumerate it, then pack the enumeration. -/
def packTree (gzip : List Nat → List Nat) (ctx : PackCtx) (entries : List DirTree) :
    Option PackingResult :=
  pack gzip ctx (getFilesRecursively ctx.srcDir entries)

/-! ### Option merging and the FilePacker constructor -/

/-- Partial PackingOptions as a JavaScript caller passes them: the outer
Option records whether the property is present on the object at all, the
inner Option whether its value is defined (a property may be explicitly set
to undefined). -/
structure PartialOptions where
  maxPartSize : Option (Option Nat)
  outputNameFormat : Option (Option String)
  compress : Option (Option Bool)
deriving Repr, DecidableEq

/-- One field of Object.assign({}, defaultOptions, options): a property
present on options wins even when its value is undefined; an absent property
keeps the default. -/
def mergeField {α : Type} (dflt : α) : Option (Option α) → Option α
  | none => some dflt
  | some v => v

/-- The option record a successfully constructed FilePacker holds.
maxPartSize stays optional because an explicitly undefined value survives
merging and the constructor never validates it. -/
structure MergedOptions where
  maxPartSize : Option Nat
  outputNameFormat : String
  compress : Bool
deriving Repr, DecidableEq

/-- The error kinds the packer can raise. -/
inductive PackError where
  | configError (msg : String)
  | streamError
deriving Repr, DecidableEq

/-- The message of the configuration error raised by the constructor. -/
def missingPlaceholderMsg : String := "Output name format missing %d placeholder."

/-- Lines 78-80 of the constructor: append the fixed archive extension
unless the format already ends with it. -/
def normalizeOutputNameFormat (fmt : String) : String :=
  if jsEndsWith fmt ".uwu" then fmt else fmt ++ ".uwu"

/-- The FilePacker constructor: merge the options over the defaults, fail
when the merged output name format is undefined or lacks the placeholder
(optional chaining makes an undefined format falsy and hence a failure),
normalize the extension, and coerce a falsy compress value to false. -/
def mkFilePacker (opts : PartialOptions) : Except PackError MergedOptions :=
  let mps := mergeField maxSafeInteger opts.maxPartSize
  let fmt? := mergeField "%d" opts.outputNameFormat
  let cmp? := mergeField false opts.compress
  match fmt? with
  | none => .error (.configError missingPlaceholderMsg)
  | some fmt =>
    if jsIncludes fmt "%d" then
      let fmtFinal := normalizeOutputNameFormat fmt
      let cmp := match cmp? with
        | some true => true
        | _ => false
      .ok { maxPartSize := mps, outputNameFormat := fmtFinal, compress := cmp }
    else .error (.configError missingPlaceholderMsg)

/-! ### The public packDir operation with its filesystem effects -/

/-- The filesystem mutations pack performs, in order. -/
inductive FSEvent where
  | mkdirRecursive (p : String)
  | writeFile (p : String)
  | renameFile (src dst : String)
  | removeFile (p : String)
deriving Repr, DecidableEq

/-- The finalization effects of one part: the compressed branch writes the
final file from the temporary one and removes the temporary, the plain
branch renames the temporary into place.  The chunk-level appends to the
temporary file during copying precede these and are not itemized. -/
def partEvents (dstDir : String) (p : DestinationEntry) : List FSEvent :=
  if p.compressed then
    [.writeFile (pathJoin dstDir p.name), .removeFile (pathJoin dstDir p.name ++ ".tmp")]
  else
    [.renameFile (pathJoin dstDir p.name ++ ".tmp") (pathJoin dstDir p.name)]

/-- packDir: construct a FilePacker (which can only throw the configuration
error, before touching the filesystem) and run pack, whose first effect is
creating the destination directory when absent.  An undefined merged
maxPartSize makes the first ranged read fail (a NaN stream end is out of
range), after the directory creation; likewise a run whose copy loop makes
no progress errors mid-stream, with its partial writes not itemized.  When
the end-of-run finalization hits a part whose temporary file was never
created, the run rejects after the finalizations of the earlier parts,
which had all really happened.  Only a fully successful run gets the
success trace: directory creation, each part finalization in order, and
the manifest write. -/
def packDirModel (gzip : List Nat → List Nat) (srcDir dstDir : String)
    (entries : List DirTree) (dstExists : Bool) (opts : PartialOptions) :
    Except PackError PackingResult × List FSEvent :=
  match mkFilePacker opts with
  | .error e => (.error e, [])
  | .ok merged =>
    let mk : List FSEvent := if dstExists then [] else [.mkdirRecursive dstDir]
    match merged.maxPartSize with
    | none => (.error .streamError, mk)
    | some max =>
      let ctx : PackCtx :=
        { srcDir := srcDir, dstDir := dstDir, maxPartSize := max,
          outputNameFormat := merged.outputNameFormat, compress := merged.compress }
      match packFiles gzip ctx (getFilesRecursively srcDir entries) (initialState ctx) with
      | none => (.error .streamError, mk)
      | some stF =>
        match finalizePart gzip ctx stF with
        | none =>
            (.error .streamError,
              mk ++ stF.result.fileList.foldr (fun p acc => partEvents dstDir p ++ acc) [])
        | some fin =>
          let r := { fin.result with parts := fin.result.fileList.length }
          (.ok r,
            mk ++ r.fileList.foldr (fun p acc => partEvents dstDir p ++ acc) [] ++
              [.writeFile (pathJoin dstDir (jsReplaceFirst merged.outputNameFormat "%d" "dat"))])

/-! ### Observations used by the statements -/

/-- Sum of the packageSize fields of a record list. -/
def sumPkg (l : List FileType) : Nat := (l.map FileType.packageSize).sum

/-- packageOffset bookkeeping within one part: each record starts exactly
where the previous one ended, starting from the given offset. -/
def offsetsOk : List FileType → Nat → Bool
  | [], _ => true
  | r :: rs, off => r.packageOffset == off && offsetsOk rs (off + r.packageSize)

/-- fileOffset continuity of a run of records of one source file, in
production order: each record resumes the source file exactly where the
previous record stopped. -/
def contiguousFrom : Nat → List FileType → Bool
  | _, [] => true
  | off, r :: rs => r.fileOffset == off && contiguousFrom (off + r.packageSize) rs

/-- All bytes accounted for so far: finalized parts plus the open part. -/
def totalSum (st : PackState) : Nat := st.result.totalSize + st.curDest.size

/-- Every FileRecord produced so far, in production order. -/
def allRecords (st : PackState) : List FileType :=
  (st.result.fileList.map DestinationEntry.fileList).flatten ++ st.curDest.fileList

theorem sumPkg_nil : sumPkg [] = 0 := rfl

theorem sumPkg_cons (r : FileType) (l : List FileType) :
    sumPkg (r :: l) = r.packageSize + sumPkg l := by
  simp [sumPkg]

theorem sumPkg_append (l₁ l₂ : List FileType) :
    sumPkg (l₁ ++ l₂) = sumPkg l₁ + sumPkg l₂ := by
  simp [sumPkg]

theorem offsetsOk_snoc (l : List FileType) (r : FileType) (off : Nat)
    (h : offsetsOk l off = true) (hr : r.packageOffset = off + sumPkg l) :
    offsetsOk (l ++ [r]) off = true := by
  induction l generalizing off with
  | nil =>
    simp [offsetsOk, sumPkg_nil] at hr ⊢
    omega
  | cons a as ih =>
    simp only [offsetsOk, Bool.and_eq_true, beq_iff_eq] at h
    simp only [List.cons_append, offsetsOk, Bool.and_eq_true, beq_iff_eq]
    refine ⟨h.1, ih _ h.2 ?_⟩
    rw [hr, sumPkg_cons]
    omega

/-- The full effect of one iteration of the inner copy loop: the bytes
streamed (and hence hashed, appended to the part, and recorded as the new
FileRecord's packageSize) number exactly
min(size - read, maxPartSize - currentPart.size), thanks to the read stream
being clamped at end-of-file. -/
theorem copyStep_spec (ctx : PackCtx) (src : SrcFile) (read : Nat) (st : PackState) :
    (copyStep ctx src read st).2 = min (src.size - read) (ctx.maxPartSize - st.curDest.size) ∧
    (copyStep ctx src read st).1.result = st.result ∧
    (copyStep ctx src read st).1.curDest.size
        = st.curDest.size + min (src.size - read) (ctx.maxPartSize - st.curDest.size) ∧
    (copyStep ctx src read st).1.curDest.fileList
        = st.curDest.fileList ++
            [{ filePath := pathRelative ctx.srcDir src.path
               fileOffset := read
               fileSize := src.size
               packageOffset := st.curDest.size
               packageSize := min (src.size - read) (ctx.maxPartSize - st.curDest.size) }] ∧
    (copyStep ctx src read st).1.curDest.sha1
        = st.curDest.sha1 ++
            (src.content.drop read).take
              (min (src.size - read) (ctx.maxPartSize - st.curDest.size)) ∧
    (copyStep ctx src read st).1.curDest.tmpCreated = true := by
  have hlen : (src.content.drop read).length = src.size - read := by
    simp [SrcFile.size]
  have hn : ((src.content.drop read).take
        (read + min src.size (ctx.maxPartSize - st.curDest.size) - read)).length
      = min (src.size - read) (ctx.maxPartSize - st.curDest.size) := by
    rw [List.length_take, hlen]
    omega
  have htake : (src.content.drop read).take
        (read + min src.size (ctx.maxPartSize - st.curDest.size) - read)
      = (src.content.drop read).take
        (min (src.size - read) (ctx.maxPartSize - st.curDest.size)) := by
    rw [List.take_eq_take, hlen]
    omega
  have hn2 : ((src.content.drop read).take
        (min (src.size - read) (ctx.maxPartSize - st.curDest.size))).length
      = min (src.size - read) (ctx.maxPartSize - st.curDest.size) := by
    rw [List.length_take, hlen]
    omega
  refine ⟨?_, ?_, ?_, ?_, ?_, ?_⟩ <;>
    simp only [copyStep, hn, htake, hn2]

/-- C1: for every source file and every iteration of the inner copy loop
(bytes remain in the file and the current part has free room, as holds at
every loop entry), the number of bytes streamed into the current part equals
min(sourceFile.size - read, maxPartSize - currentPart.size); that number is
recorded as the appended FileRecord's packageSize, and the streamed bytes
are exactly that many bytes of the source file starting at read, so the
copy is byte-exact. -/
theorem c1_copy_loop_bytes_exact (ctx : PackCtx) (src : SrcFile) (read : Nat)
    (st : PackState) (hread : read < src.size)
    (hroom : st.curDest.size < ctx.maxPartSize) :
    (copyStep ctx src read st).2
        = min (src.size - read) (ctx.maxPartSize - st.curDest.size) ∧
    (copyStep ctx src read st).1.curDest.fileList
        = st.curDest.fileList ++
            [{ filePath := pathRelative ctx.srcDir src.path
               fileOffset := read
               fileSize := src.size
               packageOffset := st.curDest.size
               packageSize := min (src.size - read) (ctx.maxPartSize - st.curDest.size) }] ∧
    (copyStep ctx src read st).1.curDest.sha1
        = st.curDest.sha1 ++
            (src.content.drop read).take
              (min (src.size - read) (ctx.maxPartSize - st.curDest.size)) ∧
    ((src.content.drop read).take
        (min (src.size - read) (ctx.maxPartSize - st.curDest.size))).length
      = min (src.size - read) (ctx.maxPartSize - st.curDest.size) := by
  obtain ⟨h1, _, _, h4, h5, _⟩ := copyStep_spec ctx src read st
  refine ⟨h1, h4, h5, ?_⟩
  rw [List.length_take]
  have : (src.content.drop read).length = src.size - read := by simp [SrcFile.size]
  omega

/-- Witness for C1 at a concrete input: a 5-byte file, an empty 10-byte
part. -/
theorem c1_copy_loop_bytes_exact_witness :
    (0 : Nat) < 5 ∧ (0 : Nat) < 10 ∧
    (copyStep { srcDir := "s", dstDir := "d", maxPartSize := 10,
                outputNameFormat := "%d.uwu", compress := false }
        { path := "s/x", content := [9, 8, 7, 6, 5] } 0
        (initialState { srcDir := "s", dstDir := "d", maxPartSize := 10,
                        outputNameFormat := "%d.uwu", compress := false })).2
      = min (5 - 0) (10 - 0) :=
  ⟨by decide, by decide,
    (c1_copy_loop_bytes_exact _ _ 0 _ (by decide) (by decide)).1⟩

theorem jsEndsWith_append_self (s t : String) : jsEndsWith (s ++ t) t = true := by
  unfold jsEndsWith
  rw [String.data_append]
  exact List.isSuffixOf_iff_suffix.mpr (List.suffix_append _ _)

/-- C8: the outputNameFormat normalization leaves a format that already ends
with the archive extension unchanged, appends the extension exactly once
otherwise, and is therefore idempotent. -/
theorem c8_extension_normalization_idempotent (fmt : String) :
    (jsEndsWith fmt ".uwu" = true → normalizeOutputNameFormat fmt = fmt) ∧
    (jsEndsWith fmt ".uwu" = false → normalizeOutputNameFormat fmt = fmt ++ ".uwu") ∧
    normalizeOutputNameFormat (normalizeOutputNameFormat fmt)
      = normalizeOutputNameFormat fmt := by
  refine ⟨fun h => by simp [normalizeOutputNameFormat, h],
          fun h => by simp [normalizeOutputNameFormat, h], ?_⟩
  by_cases h : jsEndsWith fmt ".uwu" = true
  · simp [normalizeOutputNameFormat, h]
  · simp only [normalizeOutputNameFormat, h, if_false, Bool.not_eq_true] at *
    simp [h, jsEndsWith_append_self]

/-- Witness for C8 at concrete formats, one already carrying the extension
and one without it. -/
theorem c8_extension_normalization_idempotent_witness :
    jsEndsWith "photos_%d.uwu" ".uwu" = true ∧
    normalizeOutputNameFormat "photos_%d.uwu" = "photos_%d.uwu" ∧
    jsEndsWith "photos_%d" ".uwu" = false ∧
    normalizeOutputNameFormat "photos_%d" = "photos_%d" ++ ".uwu" :=
  ⟨by decide,
    (c8_extension_normalization_idempotent "photos_%d.uwu").1 (by decide),
    by decide,
    (c8_extension_normalization_idempotent "photos_%d").2.1 (by decide)⟩

/-- C6: when the outputNameFormat option lacks the placeholder, construction
fails synchronously with the configuration error, and the packDir run
performs no filesystem mutation at all: the event trace is empty, so in
particular the destination directory is never created and no part or
manifest bytes are written. -/
theorem c6_missing_placeholder_errors_before_io (gzip : List Nat → List Nat)
    (srcDir dstDir : String) (entries : List DirTree) (dstExists : Bool)
    (mps : Option (Option Nat)) (cmp : Option (Option Bool)) (fmt : String)
    (h : jsIncludes fmt "%d" = false) :
    mkFilePacker { maxPartSize := mps, outputNameFormat := some (some fmt), compress := cmp }
        = .error (.configError missingPlaceholderMsg) ∧
    packDirModel gzip srcDir dstDir entries dstExists
        { maxPartSize := mps, outputNameFormat := some (some fmt), compress := cmp }
      = (.error (.configError missingPlaceholderMsg), []) := by
  have h1 : mkFilePacker
      { maxPartSize := mps, outputNameFormat := some (some fmt), compress := cmp }
      = .error (.configError missingPlaceholderMsg) := by
    simp [mkFilePacker, mergeField, h]
  exact ⟨h1, by simp [packDirModel, h1]⟩

/-- Witness for C6 at a concrete placeholder-free format. -/
theorem c6_missing_placeholder_errors_before_io_witness :
    jsIncludes "output" "%d" = false ∧
    packDirModel (fun l => l) "s" "d" [] false
        { maxPartSize := none, outputNameFormat := some (some "output"), compress := none }
      = (.error (.configError missingPlaceholderMsg), []) :=
  ⟨by decide,
    (c6_missing_placeholder_errors_before_io (fun l => l) "s" "d" [] false none none
        "output" (by decide)).2⟩

/-- C10: an options object whose outputNameFormat property is present but
explicitly undefined overrides the default during Object.assign merging, so
construction raises the missing-placeholder configuration error (with no
filesystem mutation), whereas leaving the property absent falls back to the
default format and construction succeeds. -/
theorem c10_explicit_undefined_format_errors (gzip : List Nat → List Nat)
    (srcDir dstDir : String) (entries : List DirTree) (dstExists : Bool)
    (mps : Option (Option Nat)) (cmp : Option (Option Bool)) :
    packDirModel gzip srcDir dstDir entries dstExists
        { maxPartSize := mps, outputNameFormat := some none, compress := cmp }
      = (.error (.configError missingPlaceholderMsg), []) ∧
    ∃ merged, mkFilePacker { maxPartSize := mps, outputNameFormat := none, compress := cmp }
        = .ok merged ∧ merged.outputNameFormat = "%d.uwu" := by
  have h1 : mkFilePacker
      { maxPartSize := mps, outputNameFormat := some none, compress := cmp }
      = .error (.configError missingPlaceholderMsg) := by
    simp [mkFilePacker, mergeField]
  refine ⟨by simp [packDirModel, h1], ?_⟩
  have hinc : jsIncludes "%d" "%d" = true := by decide
  have hnorm : normalizeOutputNameFormat "%d" = "%d.uwu" := by decide
  refine ⟨{ maxPartSize := mergeField maxSafeInteger mps
            outputNameFormat := "%d.uwu"
            compress := match mergeField false cmp with
              | some true => true
              | _ => false }, ?_, rfl⟩
  simp [mkFilePacker, mergeField, hinc, hnorm]

set_option maxRecDepth 2000000 in
/-- C2: packing a directory holding exactly the files a (700 bytes) and
b (900 bytes), enumerated in that order, with maxPartSize 1000 yields part 1
carrying all 700 bytes of a followed by the first 300 bytes of b and part 2
carrying the remaining 600 bytes of b, with manifest parts 2 and totalSize
1600. -/
theorem c2_two_file_split_scenario :
    packTree (fun l => l)
        { srcDir := "source", dstDir := "dest", maxPartSize := 1000,
          outputNameFormat := "%d.uwu", compress := false }
        [.file "a" (List.replicate 700 1), .file "b" (List.replicate 900 2)] =
      some
        { totalSize := 1600
          compressedSize := 1600
          parts := 2
          fileList :=
            [{ name := "001.uwu"
               sha1 := List.replicate 700 1 ++ (List.replicate 900 2).take 300
               size := 1000
               compressed := false
               compressedSha1 := none
               compressedSize := none
               fileList := [⟨"a", 0, 700, 0, 700⟩, ⟨"b", 0, 900, 700, 300⟩] },
             { name := "002.uwu"
               sha1 := (List.replicate 900 2).drop 300
               size := 600
               compressed := false
               compressedSha1 := none
               compressedSize := none
               fileList := [⟨"b", 300, 900, 0, 600⟩] }] } := by
  decide

/-- C7: the claim fails on the code: packing a source directory that
enumerates no files does not produce the one-empty-part result; the
end-of-run finalization renames the initial part's temporary file, which no
copy pipeline ever created, so the run throws ENOENT before the result is
updated and pack yields no PackingResult at all. -/
theorem c7_empty_directory_crashes_no_result (gzip : List Nat → List Nat)
    (ctx : PackCtx) (entries : List DirTree)
    (h : getFilesRecursively ctx.srcDir entries = []) :
    packTree gzip ctx entries = none := by
  rw [packTree, h]
  rfl

/-- Witness for C7: a directory containing one empty subdirectory
enumerates no files, and packing it yields no result. -/
theorem c7_empty_directory_crashes_no_result_witness :
    getFilesRecursively "src" [DirTree.dir "sub" []] = [] ∧
    packTree (fun l => l)
        { srcDir := "src", dstDir := "dst", maxPartSize := 1000,
          outputNameFormat := "%d.uwu", compress := false } [DirTree.dir "sub" []]
      = none :=
  ⟨by decide,
    c7_empty_directory_crashes_no_result (fun l => l)
      { srcDir := "src", dstDir := "dst", maxPartSize := 1000,
        outputNameFormat := "%d.uwu", compress := false }
      [DirTree.dir "sub" []] (by decide)⟩

/-! ### Run invariants -/

theorem mkFinalEntry_size (gzip : List Nat → List Nat) (d : CurrentEntry) :
    (mkFinalEntry gzip d).size = d.size := by
  cases h : d.compressed <;> simp [mkFinalEntry, h]

theorem mkFinalEntry_fileList (gzip : List Nat → List Nat) (d : CurrentEntry) :
    (mkFinalEntry gzip d).fileList = d.fileList := by
  cases h : d.compressed <;> simp [mkFinalEntry, h]

theorem finalizePartOk_result_totalSize (gzip : List Nat → List Nat) (ctx : PackCtx)
    (st : PackState) :
    (finalizePartOk gzip ctx st).result.totalSize
      = st.result.totalSize + st.curDest.size := rfl

theorem finalizePartOk_result_fileList (gzip : List Nat → List Nat) (ctx : PackCtx)
    (st : PackState) :
    (finalizePartOk gzip ctx st).result.fileList
      = st.result.fileList ++ [mkFinalEntry gzip st.curDest] := rfl

theorem finalizePartOk_curDest_size (gzip : List Nat → List Nat) (ctx : PackCtx)
    (st : PackState) : (finalizePartOk gzip ctx st).curDest.size = 0 := rfl

theorem finalizePartOk_curDest_fileList (gzip : List Nat → List Nat) (ctx : PackCtx)
    (st : PackState) : (finalizePartOk gzip ctx st).curDest.fileList = [] := rfl

theorem finalizePartOk_curDest_tmp (gzip : List Nat → List Nat) (ctx : PackCtx)
    (st : PackState) : (finalizePartOk gzip ctx st).curDest.tmpCreated = false := rfl

theorem totalSum_finalizePartOk (gzip : List Nat → List Nat) (ctx : PackCtx)
    (st : PackState) : totalSum (finalizePartOk gzip ctx st) = totalSum st := by
  simp [totalSum, finalizePartOk_result_totalSize, finalizePartOk_curDest_size]

theorem allRecords_finalizePartOk (gzip : List Nat → List Nat) (ctx : PackCtx)
    (st : PackState) : allRecords (finalizePartOk gzip ctx st) = allRecords st := by
  simp [allRecords, finalizePartOk_result_fileList, finalizePartOk_curDest_fileList,
    mkFinalEntry_fileList]

theorem finalizePart_of_tmp (gzip : List Nat → List Nat) (ctx : PackCtx)
    (st : PackState) (h : st.curDest.tmpCreated = true) :
    finalizePart gzip ctx st = some (finalizePartOk gzip ctx st) := by
  simp [finalizePart, h]

theorem finalizePart_of_not_tmp (gzip : List Nat → List Nat) (ctx : PackCtx)
    (st : PackState) (h : st.curDest.tmpCreated = false) :
    finalizePart gzip ctx st = none := by
  simp [finalizePart, h]

theorem finalizePart_some_inv (gzip : List Nat → List Nat) (ctx : PackCtx)
    (st : PackState) (fin : PackState) (h : finalizePart gzip ctx st = some fin) :
    st.curDest.tmpCreated = true ∧ fin = finalizePartOk gzip ctx st := by
  cases htmp : st.curDest.tmpCreated
  · rw [finalizePart_of_not_tmp gzip ctx st htmp] at h
    cases h
  · rw [finalizePart_of_tmp gzip ctx st htmp] at h
    exact ⟨rfl, (Option.some.inj h).symm⟩

/-- The state invariant the engine maintains at every loop entry: the open
part has free room, its temporary file exists exactly when it has received
bytes, its size is the sum of its records' packageSizes, its
records' packageOffsets chain from 0 and are positive, and every finalized
part satisfies the same bookkeeping with its size within the cap, the
aggregate totalSize being the sum of the finalized sizes. -/
structure StateInv (ctx : PackCtx) (st : PackState) : Prop where
  curLt : st.curDest.size < ctx.maxPartSize
  curTmpIff : st.curDest.tmpCreated = true ↔ 0 < st.curDest.size
  curSum : st.curDest.size = sumPkg st.curDest.fileList
  curOff : offsetsOk st.curDest.fileList 0 = true
  curPos : ∀ r ∈ st.curDest.fileList, 0 < r.packageSize
  partsSum : ∀ p ∈ st.result.fileList, p.size = sumPkg p.fileList
  partsOff : ∀ p ∈ st.result.fileList, offsetsOk p.fileList 0 = true
  partsLe : ∀ p ∈ st.result.fileList, p.size ≤ ctx.maxPartSize
  partsPos : ∀ p ∈ st.result.fileList, ∀ r ∈ p.fileList, 0 < r.packageSize
  totalEq : st.result.totalSize = (st.result.fileList.map DestinationEntry.size).sum

/-- Every already-finalized part is exactly full; this holds throughout the
file loop, where parts are only closed by the rollover, and is broken only
by the unconditional finalization at the end of the run. -/
def PartsFull (ctx : PackCtx) (st : PackState) : Prop :=
  ∀ p ∈ st.result.fileList, p.size = ctx.maxPartSize

theorem initialState_inv (ctx : PackCtx) (hmax : 0 < ctx.maxPartSize) :
    StateInv ctx (initialState ctx) := by
  constructor <;> simp [initialState, initCurDst, sumPkg, offsetsOk, hmax]

theorem initialState_partsFull (ctx : PackCtx) : PartsFull ctx (initialState ctx) := by
  intro p hp
  simp [initialState] at hp

theorem initialState_totalSum (ctx : PackCtx) : totalSum (initialState ctx) = 0 := rfl

theorem initialState_allRecords (ctx : PackCtx) : allRecords (initialState ctx) = [] := by
  simp [allRecords, initialState, initCurDst]

theorem finalizePartOk_inv (gzip : List Nat → List Nat) (ctx : PackCtx) (st : PackState)
    (hmax : 0 < ctx.maxPartSize) (hle : st.curDest.size ≤ ctx.maxPartSize)
    (hsum : st.curDest.size = sumPkg st.curDest.fileList)
    (hoff : offsetsOk st.curDest.fileList 0 = true)
    (hpos : ∀ r ∈ st.curDest.fileList, 0 < r.packageSize)
    (hps : ∀ p ∈ st.result.fileList, p.size = sumPkg p.fileList)
    (hpo : ∀ p ∈ st.result.fileList, offsetsOk p.fileList 0 = true)
    (hpl : ∀ p ∈ st.result.fileList, p.size ≤ ctx.maxPartSize)
    (hpp : ∀ p ∈ st.result.fileList, ∀ r ∈ p.fileList, 0 < r.packageSize)
    (hte : st.result.totalSize = (st.result.fileList.map DestinationEntry.size).sum) :
    StateInv ctx (finalizePartOk gzip ctx st) := by
  have hmem : ∀ p ∈ (finalizePartOk gzip ctx st).result.fileList,
      p ∈ st.result.fileList ∨ p = mkFinalEntry gzip st.curDest := by
    intro p hp
    rw [finalizePartOk_result_fileList] at hp
    rcases List.mem_append.mp hp with h | h
    · exact Or.inl h
    · exact Or.inr (List.mem_singleton.mp h)
  constructor
  · rw [finalizePartOk_curDest_size]; exact hmax
  · rw [finalizePartOk_curDest_tmp, finalizePartOk_curDest_size]
    simp
  · rw [finalizePartOk_curDest_size, finalizePartOk_curDest_fileList]; rfl
  · rw [finalizePartOk_curDest_fileList]; rfl
  · rw [finalizePartOk_curDest_fileList]; intro r hr; cases hr
  · intro p hp
    rcases hmem p hp with h | h
    · exact hps p h
    · rw [h, mkFinalEntry_size, mkFinalEntry_fileList]; exact hsum
  · intro p hp
    rcases hmem p hp with h | h
    · exact hpo p h
    · rw [h, mkFinalEntry_fileList]; exact hoff
  · intro p hp
    rcases hmem p hp with h | h
    · exact hpl p h
    · rw [h, mkFinalEntry_size]; exact hle
  · intro p hp
    rcases hmem p hp with h | h
    · exact hpp p h
    · rw [h, mkFinalEntry_fileList]; exact hpos
  · rw [finalizePartOk_result_totalSize, finalizePartOk_result_fileList]
    simp [hte, mkFinalEntry_size]

theorem processFileLoop_done (gzip : List Nat → List Nat) (ctx : PackCtx) (src : SrcFile)
    (fuel read : Nat) (st : PackState) (hr : ¬ read < src.size) :
    processFileLoop gzip ctx src fuel read st = some st := by
  rw [processFileLoop.eq_def]
  simp [hr]

theorem processFileLoop_succ (gzip : List Nat → List Nat) (ctx : PackCtx) (src : SrcFile)
    (fuel read : Nat) (st : PackState) (hr : read < src.size) :
    processFileLoop gzip ctx src (fuel + 1) read st
      = (if (copyStep ctx src read st).1.curDest.size = ctx.maxPartSize
         then finalizePart gzip ctx (copyStep ctx src read st).1
         else some (copyStep ctx src read st).1).bind
          (processFileLoop gzip ctx src fuel (read + (copyStep ctx src read st).2)) := by
  conv =>
    lhs
    rw [processFileLoop.eq_def]
  simp [hr]

/-- The full specification of the inner copy loop: it terminates within the
given fuel, preserves the state invariant, accounts for exactly the
remaining bytes of the file, keeps every finalized part full when they all
were, and appends a contiguous run of FileRecords for this file whose
packageSizes total the remaining bytes. -/
theorem processFileLoop_spec (gzip : List Nat → List Nat) (ctx : PackCtx) (src : SrcFile)
    (hmax : 0 < ctx.maxPartSize) (fuel : Nat) :
    ∀ (read : Nat) (st : PackState), StateInv ctx st → read ≤ src.size →
      src.size - read ≤ fuel →
      ∃ st', processFileLoop gzip ctx src fuel read st = some st' ∧
        StateInv ctx st' ∧
        totalSum st' = totalSum st + (src.size - read) ∧
        (PartsFull ctx st → PartsFull ctx st') ∧
        ∃ new, allRecords st' = allRecords st ++ new ∧
          contiguousFrom read new = true ∧
          sumPkg new = src.size - read ∧
          ∀ r ∈ new, r.filePath = pathRelative ctx.srcDir src.path ∧
            r.fileSize = src.size ∧ 0 < r.packageSize ∧
            r.packageSize ≤ ctx.maxPartSize := by
  induction fuel with
  | zero =>
    intro read st hinv hle hfuel
    have hr : ¬ read < src.size := by omega
    refine ⟨st, processFileLoop_done gzip ctx src 0 read st hr, hinv, by omega,
      fun h => h, [], by simp, rfl, by simp [sumPkg]; omega, by simp⟩
  | succ fuel ih =>
    intro read st hinv hle hfuel
    by_cases hr : read < src.size
    case neg =>
      refine ⟨st, processFileLoop_done gzip ctx src (fuel + 1) read st hr, hinv, by omega,
        fun h => h, [], by simp, rfl, by simp [sumPkg]; omega, by simp⟩
    case pos =>
      obtain ⟨hn, hres, hsize, hfl, hsha, htmp⟩ := copyStep_spec ctx src read st
      have hcap : 0 < ctx.maxPartSize - st.curDest.size := by
        have := hinv.curLt; omega
      have hnval : (copyStep ctx src read st).2
          = min (src.size - read) (ctx.maxPartSize - st.curDest.size) := hn
      have hnpos : 0 < (copyStep ctx src read st).2 := by rw [hnval]; omega
      have hnle : (copyStep ctx src read st).2 ≤ src.size - read := by rw [hnval]; omega
      have hnlemax : (copyStep ctx src read st).2 ≤ ctx.maxPartSize := by rw [hnval]; omega
      -- the intermediate state after the copy, before the rollover check
      have h1le : (copyStep ctx src read st).1.curDest.size ≤ ctx.maxPartSize := by
        rw [hsize]; omega
      have h1sum : (copyStep ctx src read st).1.curDest.size
          = sumPkg (copyStep ctx src read st).1.curDest.fileList := by
        rw [hsize, hfl, sumPkg_append, ← hinv.curSum]
        simp [sumPkg]
      have h1off : offsetsOk (copyStep ctx src read st).1.curDest.fileList 0 = true := by
        rw [hfl]
        exact offsetsOk_snoc _ _ _ hinv.curOff (by simp [← hinv.curSum])
      have h1pos : ∀ r ∈ (copyStep ctx src read st).1.curDest.fileList,
          0 < r.packageSize := by
        rw [hfl]
        intro r hrm
        rcases List.mem_append.mp hrm with h | h
        · exact hinv.curPos r h
        · rw [List.mem_singleton.mp h]
          show 0 < min (src.size - read) (ctx.maxPartSize - st.curDest.size)
          omega
      have h1rec : allRecords (copyStep ctx src read st).1
          = allRecords st ++
            [{ filePath := pathRelative ctx.srcDir src.path
               fileOffset := read
               fileSize := src.size
               packageOffset := st.curDest.size
               packageSize := min (src.size - read) (ctx.maxPartSize - st.curDest.size) }] := by
        rw [allRecords, allRecords, hres, hfl, List.append_assoc]
      have h1total : totalSum (copyStep ctx src read st).1
          = totalSum st + (copyStep ctx src read st).2 := by
        rw [totalSum, totalSum, hres, hsize, hn]
        omega
      rw [processFileLoop_succ gzip ctx src fuel read st hr]
      by_cases hfull : (copyStep ctx src read st).1.curDest.size = ctx.maxPartSize
      · -- rollover: the part is exactly full, its temporary file exists, and
        -- it is finalized successfully
        rw [if_pos hfull, finalizePart_of_tmp gzip ctx _ htmp, Option.some_bind]
        have hinv₂ : StateInv ctx (finalizePartOk gzip ctx (copyStep ctx src read st).1) := by
          refine finalizePartOk_inv gzip ctx _ hmax h1le h1sum h1off h1pos ?_ ?_ ?_ ?_ ?_ <;>
            rw [hres]
          · exact hinv.partsSum
          · exact hinv.partsOff
          · exact hinv.partsLe
          · exact hinv.partsPos
          · exact hinv.totalEq
        obtain ⟨st', hloop, hinv', htot', hfull', new', hrec', hcont', hsum', hprops'⟩ :=
          ih (read + (copyStep ctx src read st).2)
            (finalizePartOk gzip ctx (copyStep ctx src read st).1) hinv₂ (by omega) (by omega)
        refine ⟨st', hloop, hinv', ?_, ?_,
          { filePath := pathRelative ctx.srcDir src.path
            fileOffset := read
            fileSize := src.size
            packageOffset := st.curDest.size
            packageSize := min (src.size - read) (ctx.maxPartSize - st.curDest.size) } :: new',
          ?_, ?_, ?_, ?_⟩
        · rw [htot', totalSum_finalizePartOk, h1total]
          omega
        · intro hpf
          apply hfull'
          intro p hp
          rw [finalizePartOk_result_fileList, hres] at hp
          rcases List.mem_append.mp hp with h | h
          · exact hpf p h
          · rw [List.mem_singleton.mp h, mkFinalEntry_size]
            exact hfull
        · rw [hrec', allRecords_finalizePartOk, h1rec, List.append_assoc]
          rfl
        · have hstep : contiguousFrom read
              ({ filePath := pathRelative ctx.srcDir src.path
                 fileOffset := read
                 fileSize := src.size
                 packageOffset := st.curDest.size
                 packageSize := min (src.size - read) (ctx.maxPartSize - st.curDest.size) } :: new')
              = ((read == read) && contiguousFrom
                  (read + min (src.size - read) (ctx.maxPartSize - st.curDest.size)) new') := rfl
          rw [hstep, beq_self_eq_true, Bool.true_and, ← hn]
          exact hcont'
        · have hstep : sumPkg
              ({ filePath := pathRelative ctx.srcDir src.path
                 fileOffset := read
                 fileSize := src.size
                 packageOffset := st.curDest.size
                 packageSize := min (src.size - read) (ctx.maxPartSize - st.curDest.size) } :: new')
              = min (src.size - read) (ctx.maxPartSize - st.curDest.size) + sumPkg new' := by
            rw [sumPkg_cons]
          rw [hstep, hsum', hn]
          omega
        · intro r hrm
          rcases List.mem_cons.mp hrm with h | h
          · rw [h]
            refine ⟨rfl, rfl, ?_, ?_⟩
            · show 0 < min (src.size - read) (ctx.maxPartSize - st.curDest.size)
              omega
            · show min (src.size - read) (ctx.maxPartSize - st.curDest.size) ≤ ctx.maxPartSize
              omega
          · exact hprops' r h
      · -- no rollover: the loop continues with the grown part
        rw [if_neg hfull, Option.some_bind]
        have hlt : (copyStep ctx src read st).1.curDest.size < ctx.maxPartSize := by
          omega
        have hinv₂ : StateInv ctx (copyStep ctx src read st).1 := by
          refine ⟨hlt, ?_, h1sum, h1off, h1pos, ?_, ?_, ?_, ?_, ?_⟩
          · rw [htmp, hsize]
            simp
            omega
          · rw [hres]; exact hinv.partsSum
          · rw [hres]; exact hinv.partsOff
          · rw [hres]; exact hinv.partsLe
          · rw [hres]; exact hinv.partsPos
          · rw [hres]; exact hinv.totalEq
        obtain ⟨st', hloop, hinv', htot', hfull', new', hrec', hcont', hsum', hprops'⟩ :=
          ih (read + (copyStep ctx src read st).2) (copyStep ctx src read st).1 hinv₂
            (by omega) (by omega)
        refine ⟨st', hloop, hinv', ?_, ?_,
          { filePath := pathRelative ctx.srcDir src.path
            fileOffset := read
            fileSize := src.size
            packageOffset := st.curDest.size
            packageSize := min (src.size - read) (ctx.maxPartSize - st.curDest.size) } :: new',
          ?_, ?_, ?_, ?_⟩
        · rw [htot', h1total]
          omega
        · intro hpf
          apply hfull'
          intro p hp
          rw [hres] at hp
          exact hpf p hp
        · rw [hrec', h1rec, List.append_assoc]
          rfl
        · have hstep : contiguousFrom read
              ({ filePath := pathRelative ctx.srcDir src.path
                 fileOffset := read
                 fileSize := src.size
                 packageOffset := st.curDest.size
                 packageSize := min (src.size - read) (ctx.maxPartSize - st.curDest.size) } :: new')
              = ((read == read) && contiguousFrom
                  (read + min (src.size - read) (ctx.maxPartSize - st.curDest.size)) new') := rfl
          rw [hstep, beq_self_eq_true, Bool.true_and, ← hn]
          exact hcont'
        · have hstep : sumPkg
              ({ filePath := pathRelative ctx.srcDir src.path
                 fileOffset := read
                 fileSize := src.size
                 packageOffset := st.curDest.size
                 packageSize := min (src.size - read) (ctx.maxPartSize - st.curDest.size) } :: new')
              = min (src.size - read) (ctx.maxPartSize - st.curDest.size) + sumPkg new' := by
            rw [sumPkg_cons]
          rw [hstep, hsum', hn]
          omega
        · intro r hrm
          rcases List.mem_cons.mp hrm with h | h
          · rw [h]
            refine ⟨rfl, rfl, ?_, ?_⟩
            · show 0 < min (src.size - read) (ctx.maxPartSize - st.curDest.size)
              omega
            · show min (src.size - read) (ctx.maxPartSize - st.curDest.size) ≤ ctx.maxPartSize
              omega
          · exact hprops' r h

/-- processFile terminates, preserves the invariant, accounts for exactly
the file's bytes, keeps finalized parts full, and appends a contiguous run
of records for the file starting at offset 0. -/
theorem processFile_spec (gzip : List Nat → List Nat) (ctx : PackCtx) (src : SrcFile)
    (st : PackState) (hmax : 0 < ctx.maxPartSize) (hinv : StateInv ctx st) :
    ∃ st', processFile gzip ctx src st = some st' ∧
      StateInv ctx st' ∧
      totalSum st' = totalSum st + src.size ∧
      (PartsFull ctx st → PartsFull ctx st') ∧
      ∃ new, allRecords st' = allRecords st ++ new ∧
        contiguousFrom 0 new = true ∧
        sumPkg new = src.size ∧
        ∀ r ∈ new, r.filePath = pathRelative ctx.srcDir src.path ∧
          r.fileSize = src.size ∧ 0 < r.packageSize ∧
          r.packageSize ≤ ctx.maxPartSize := by
  obtain ⟨st', h1, h2, h3, h4, new, h5, h6, h7, h8⟩ :=
    processFileLoop_spec gzip ctx src hmax src.size 0 st hinv (by omega) (by omega)
  exact ⟨st', h1, h2, by simpa using h3, h4, new, h5, h6, by simpa using h7, h8⟩

/-- The file loop of pack terminates, preserves the invariant, accounts for
the sum of the file sizes, and keeps every finalized part exactly full. -/
theorem packFiles_spec (gzip : List Nat → List Nat) (ctx : PackCtx)
    (hmax : 0 < ctx.maxPartSize) :
    ∀ (srcs : List SrcFile) (st : PackState), StateInv ctx st →
      ∃ st', packFiles gzip ctx srcs st = some st' ∧
        StateInv ctx st' ∧
        totalSum st' = totalSum st + (srcs.map SrcFile.size).sum ∧
        (PartsFull ctx st → PartsFull ctx st') := by
  intro srcs
  induction srcs with
  | nil =>
    intro st hinv
    exact ⟨st, rfl, hinv, by simp, fun h => h⟩
  | cons src rest ih =>
    intro st hinv
    obtain ⟨st₁, h1, hinv₁, htot₁, hpf₁, _⟩ := processFile_spec gzip ctx src st hmax hinv
    obtain ⟨st', h2, hinv', htot', hpf'⟩ := ih st₁ hinv₁
    refine ⟨st', ?_, hinv', ?_, fun h => hpf' (hpf₁ h)⟩
    · simp [packFiles, h1, h2]
    · rw [htot', htot₁]
      simp
      omega

/-- The end-to-end shape of a pack run with positive maxPartSize: the file
loop succeeds in a state where every finalized part is exactly full and the
accounted bytes are the sum of the source sizes; the run's outcome is then
decided by the unconditional end-of-run finalization, which succeeds exactly
when the final part's temporary file exists. -/
theorem pack_state_spec (gzip : List Nat → List Nat) (ctx : PackCtx) (srcs : List SrcFile)
    (hmax : 0 < ctx.maxPartSize) :
    ∃ stF, packFiles gzip ctx srcs (initialState ctx) = some stF ∧
      StateInv ctx stF ∧
      totalSum stF = (srcs.map SrcFile.size).sum ∧
      PartsFull ctx stF ∧
      (∀ fin, finalizePart gzip ctx stF = some fin →
        pack gzip ctx srcs = some { fin.result with parts := fin.result.fileList.length }) ∧
      (finalizePart gzip ctx stF = none → pack gzip ctx srcs = none) := by
  obtain ⟨stF, h1, hinv, htot, hpf⟩ :=
    packFiles_spec gzip ctx hmax srcs (initialState ctx) (initialState_inv ctx hmax)
  refine ⟨stF, h1, hinv, ?_, hpf (initialState_partsFull ctx), ?_, ?_⟩
  · rw [htot, initialState_totalSum]
    omega
  · intro fin hfin
    simp [pack, h1, hfin]
  · intro hfin
    simp [pack, h1, hfin]

/-- Concrete fixture for witnesses: a 10-byte part cap without
compression. -/
def ctxW : PackCtx :=
  { srcDir := "s", dstDir := "d", maxPartSize := 10,
    outputNameFormat := "%d.uwu", compress := false }

/-- Concrete fixture for witnesses: a single 2-byte source file. -/
def srcW : SrcFile := { path := "s/x", content := [5, 6] }

/-- Concrete fixture for witnesses: the result of packing srcW under
ctxW. -/
def resW : PackingResult :=
  { totalSize := 2
    compressedSize := 2
    parts := 1
    fileList :=
      [{ name := "001.uwu", sha1 := [5, 6], size := 2, compressed := false,
         compressedSha1 := none, compressedSize := none,
         fileList := [⟨"x", 0, 2, 0, 2⟩] }] }

/-- C3: in every terminating run with compress false and a positive part
cap, the result's totalSize equals the sum of the enumerated source file
sizes, and it equals the sum of the size fields of the parts. -/
theorem c3_total_size_is_sum_of_sources (gzip : List Nat → List Nat) (ctx : PackCtx)
    (srcs : List SrcFile) (r : PackingResult) (hmax : 0 < ctx.maxPartSize)
    (hcomp : ctx.compress = false) (hrun : pack gzip ctx srcs = some r) :
    r.totalSize = (srcs.map SrcFile.size).sum ∧
    (r.fileList.map DestinationEntry.size).sum = (srcs.map SrcFile.size).sum := by
  obtain ⟨stF, hpfiles, hinv, htot, _, hsome, hnone⟩ := pack_state_spec gzip ctx srcs hmax
  cases hfin : finalizePart gzip ctx stF with
  | none =>
    rw [hnone hfin] at hrun
    cases hrun
  | some fin =>
    obtain ⟨_, hfe⟩ := finalizePart_some_inv gzip ctx stF fin hfin
    have hpk := hsome fin hfin
    rw [hrun] at hpk
    have hr := Option.some.inj hpk
    subst hfe
    subst hr
    constructor
    · show stF.result.totalSize + stF.curDest.size = _
      exact htot
    · show ((stF.result.fileList ++ [mkFinalEntry gzip stF.curDest]).map
          DestinationEntry.size).sum = _
      rw [List.map_append, List.sum_append, ← hinv.totalEq]
      simp [mkFinalEntry_size]
      exact htot

/-- Witness for C3: packing one 2-byte file with cap 10 totals 2 bytes. -/
theorem c3_total_size_is_sum_of_sources_witness :
    (0 : Nat) < ctxW.maxPartSize ∧ ctxW.compress = false ∧
    pack (fun l => l) ctxW [srcW] = some resW ∧
    resW.totalSize = ([srcW].map SrcFile.size).sum :=
  ⟨by decide, by decide, by decide,
    (c3_total_size_is_sum_of_sources (fun l => l) ctxW [srcW] resW (by decide) (by decide)
      (by decide)).1⟩

/-- C4: in every terminating run with a positive part cap, each finalized
part's size equals the sum of the packageSize fields of its records, and
each record's packageOffset equals the sum of the packageSizes of the
records before it, so the records of a part are monotonically increasing
and non-overlapping. -/
theorem c4_part_size_and_package_offsets (gzip : List Nat → List Nat) (ctx : PackCtx)
    (srcs : List SrcFile) (r : PackingResult) (hmax : 0 < ctx.maxPartSize)
    (hrun : pack gzip ctx srcs = some r) :
    ∀ p ∈ r.fileList, p.size = sumPkg p.fileList ∧ offsetsOk p.fileList 0 = true := by
  obtain ⟨stF, hpfiles, hinv, _, _, hsome, hnone⟩ := pack_state_spec gzip ctx srcs hmax
  cases hfin : finalizePart gzip ctx stF with
  | none =>
    rw [hnone hfin] at hrun
    cases hrun
  | some fin =>
    obtain ⟨_, hfe⟩ := finalizePart_some_inv gzip ctx stF fin hfin
    have hpk := hsome fin hfin
    rw [hrun] at hpk
    have hr := Option.some.inj hpk
    subst hfe
    subst hr
    intro p hp
    have hp' : p ∈ stF.result.fileList ++ [mkFinalEntry gzip stF.curDest] := hp
    rcases List.mem_append.mp hp' with h | h
    · exact ⟨hinv.partsSum p h, hinv.partsOff p h⟩
    · rw [List.mem_singleton.mp h]
      rw [mkFinalEntry_size, mkFinalEntry_fileList]
      exact ⟨hinv.curSum, hinv.curOff⟩

/-- Witness for C4 at the concrete fixture run and its single part. -/
theorem c4_part_size_and_package_offsets_witness :
    (0 : Nat) < ctxW.maxPartSize ∧
    pack (fun l => l) ctxW [srcW] = some resW ∧
    ({ name := "001.uwu", sha1 := [5, 6], size := 2, compressed := false,
       compressedSha1 := none, compressedSize := none,
       fileList := [⟨"x", 0, 2, 0, 2⟩] } : DestinationEntry).size
        = sumPkg [⟨"x", 0, 2, 0, 2⟩] :=
  ⟨by decide, by decide,
    (c4_part_size_and_package_offsets (fun l => l) ctxW [srcW] resW (by decide) (by decide)
      { name := "001.uwu", sha1 := [5, 6], size := 2, compressed := false,
        compressedSha1 := none, compressedSize := none,
        fileList := [⟨"x", 0, 2, 0, 2⟩] } (by decide)).1⟩

/-- C5: the claim fails on the code at exact multiples: a 20-byte source
file is strictly larger than the 10-byte part cap, yet packing it produces
no result at all, because the final rollover opens a fresh empty part and
the end-of-run finalization then throws ENOENT on that part's never-created
temporary file; the records the claim promises never reach a result. -/
theorem c5_oversized_exact_multiple_no_result :
    ctxW.maxPartSize < SrcFile.size ⟨"s/z", List.replicate 20 4⟩ ∧
    pack (fun l => l) ctxW [⟨"s/z", List.replicate 20 4⟩] = none :=
  ⟨by decide, by decide⟩

theorem full_parts_count (P c k M : Nat) (hM : 0 < M) (hc : c < M)
    (h : P * M + c = k * M) : P = k ∧ c = 0 := by
  rcases Nat.lt_trichotomy P k with hlt | heq | hgt
  · exfalso
    have h2 : (P + 1) * M ≤ k * M := Nat.mul_le_mul_right M hlt
    rw [Nat.succ_mul] at h2
    omega
  · subst heq
    omega
  · exfalso
    have h2 : (k + 1) * M ≤ P * M := Nat.mul_le_mul_right M hgt
    rw [Nat.succ_mul] at h2
    omega

theorem sum_map_size_of_full (L : List DestinationEntry) (M : Nat)
    (h : ∀ p ∈ L, p.size = M) :
    (L.map DestinationEntry.size).sum = L.length * M := by
  induction L with
  | nil => simp
  | cons p ps ih =>
    have h1 := h p (List.mem_cons_self _ _)
    have h2 := ih fun q hq => h q (List.mem_cons_of_mem _ hq)
    simp only [List.map_cons, List.sum_cons, List.length_cons, h1, h2, Nat.succ_mul]
    omega

/-- C9: the claim fails on the code: when the enumerated bytes total a
positive multiple of maxPartSize, the last rollover opens a fresh empty part
and the end-of-run finalization throws ENOENT on its never-created temporary
file before the trailing entry is appended or parts is set, so the run
produces no result and the claimed trailing empty part never materializes. -/
theorem c9_exact_multiple_crashes_no_result (gzip : List Nat → List Nat)
    (ctx : PackCtx) (srcs : List SrcFile) (k : Nat) (hmax : 0 < ctx.maxPartSize)
    (hk : 0 < k) (hsum : (srcs.map SrcFile.size).sum = k * ctx.maxPartSize) :
    pack gzip ctx srcs = none := by
  obtain ⟨stF, hpfiles, hinv, htot, hfullp, hsome, hnone⟩ :=
    pack_state_spec gzip ctx srcs hmax
  have hP : stF.result.totalSize = stF.result.fileList.length * ctx.maxPartSize := by
    rw [hinv.totalEq]
    exact sum_map_size_of_full _ _ hfullp
  have hPM : stF.result.fileList.length * ctx.maxPartSize + stF.curDest.size
      = k * ctx.maxPartSize := by
    have h1 : stF.result.totalSize + stF.curDest.size = k * ctx.maxPartSize := by
      rw [← hsum]
      exact htot
    rw [hP] at h1
    exact h1
  obtain ⟨_, hc0⟩ :=
    full_parts_count stF.result.fileList.length stF.curDest.size k ctx.maxPartSize
      hmax hinv.curLt hPM
  have htmp : stF.curDest.tmpCreated = false := by
    cases hcase : stF.curDest.tmpCreated
    · rfl
    · exfalso
      have := hinv.curTmpIff.mp hcase
      omega
  exact hnone (finalizePart_of_not_tmp gzip ctx stF htmp)

/-- Witness for C9: one 10-byte file exactly filling one 10-byte part makes
the run produce no result. -/
theorem c9_exact_multiple_crashes_no_result_witness :
    (0 : Nat) < ctxW.maxPartSize ∧ (0 : Nat) < 1 ∧
    ([(⟨"s/z", List.replicate 10 4⟩ : SrcFile)].map SrcFile.size).sum
        = 1 * ctxW.maxPartSize ∧
    pack (fun l => l) ctxW [⟨"s/z", List.replicate 10 4⟩] = none :=
  ⟨by decide, by decide, by decide,
    c9_exact_multiple_crashes_no_result (fun l => l) ctxW
      [⟨"s/z", List.replicate 10 4⟩] 1 (by decide) (by decide) (by decide)⟩

end Uwu
